import Mathlib

/-!
# Verification of the gateway-registry service handlers

Shallow embedding of the `arnavsurve/gateway-registry` repository:
the data model (`pkg/types`), the HTTP handlers (`pkg/handlers/handlers.go`
and its transactional variant), and the liveness-pruning loop from `main`.

Modelling conventions:
* The database is a `Store`: four lists of rows mirroring the four tables
  created by `AutoMigrate` (`MCPService`, `Capability`, `Category`,
  `MetadataItem`).  Row order is insertion order; gorm's auto `ID` columns
  of child rows play no role in any claim and are omitted.
* Timestamps are integers (seconds).  Each `time.Now()` read and each
  gorm `autoCreateTime` fill is an explicit parameter; callers are expected
  to pass them in monotone order, matching a monotone wall clock.
* Go maps (`map[string]bool`, `map[string]string`) are association lists;
  a `nil` map (field absent from the JSON body) is `none`, an explicitly
  supplied (possibly empty) map is `some`.  Iterating a map visits the
  association list in order; Go's arbitrary iteration order is resolved by
  quantifying over the list.
* Handlers return `Store × Except ApiError α`: the store after all writes
  the handler committed, and either the JSON payload of a 2xx reply or the
  error class of the 4xx/5xx reply.
* Insert failures of the underlying database are injected through a
  `FailSpec` oracle; `FailSpec.noFail` is the happy path.
-/

/-- HTTP-level error classes produced by the handlers:
400 for missing/invalid input, 404 for unknown ids, 500 for store errors. -/
inductive ApiError where
  | validationError
  | notFound
  | storeError
  deriving DecidableEq

/-- `types.MCPService` (pkg/types): the parent service row.
`createdAt` is the gorm `autoCreateTime` column, filled at row-insert time;
`lastSeen` is set by the handlers. -/
structure MCPService where
  id : String
  name : String
  description : String
  url : String
  apiDocs : String
  createdAt : Int
  lastSeen : Int
  deriving DecidableEq

/-- `types.Capability`: child row `(service_id, name, enabled)`. -/
structure Capability where
  serviceID : String
  name : String
  enabled : Bool
  deriving DecidableEq

/-- `types.Category`: child row `(service_id, name)`. -/
structure Category where
  serviceID : String
  name : String
  deriving DecidableEq

/-- `types.MetadataItem`: child row `(service_id, key, value)`. -/
structure MetadataItem where
  serviceID : String
  key : String
  value : String
  deriving DecidableEq

/-- `types.ServiceRegistrationRequest`, after JSON decoding.  `none` for a
map/slice field means the field was absent (or `null`) in the body, i.e. a
`nil` Go map/slice; `some` means the caller supplied the collection. -/
structure ServiceRegistrationRequest where
  name : String
  description : String
  url : String
  apiDocs : String
  capabilities : Option (List (String × Bool))
  categories : Option (List String)
  metadata : Option (List (String × String))
  deriving DecidableEq

/-- `types.ServiceResponse`: the outgoing JSON shape.  The capability and
metadata maps are association lists built exactly as the Go code builds its
maps (`m[k] = v` in row order). -/
structure ServiceResponse where
  id : String
  name : String
  description : String
  url : String
  capabilities : List (String × Bool)
  categories : List String
  createdAt : Int
  lastSeen : Int
  metadata : List (String × String)
  deriving DecidableEq

/-- Go map assignment `m[k] = v` on an association list: overwrite the
binding of `k` in place if present, otherwise append it. -/
def mapInsert {α : Type} : List (String × α) → String → α → List (String × α)
  | [], k, v => [(k, v)]
  | (k', v') :: rest, k, v =>
    if k' == k then (k, v) :: rest else (k', v') :: mapInsert rest k v

/-- `types.ServiceModelToResponse`: converts a loaded service and its child
rows to the response shape, rebuilding the capability and metadata maps by
iterating the rows and copying the category names in order. -/
def ServiceModelToResponse (service : MCPService) (caps : List Capability)
    (cats : List Category) (meta : List MetadataItem) : ServiceResponse :=
  { id := service.id
    name := service.name
    description := service.description
    url := service.url
    capabilities := caps.foldl (fun m c => mapInsert m c.name c.enabled) []
    categories := cats.map (fun c => c.name)
    createdAt := service.createdAt
    lastSeen := service.lastSeen
    metadata := meta.foldl (fun m i => mapInsert m i.key i.value) [] }

/-- The database state: the four tables created by `db.InitDB`'s
`AutoMigrate`. -/
structure Store where
  services : List MCPService
  capabilities : List Capability
  categories : List Category
  metadata : List MetadataItem
  deriving DecidableEq

/-- The freshly migrated, empty database. -/
def Store.empty : Store := ⟨[], [], [], []⟩

/-- A service row together with its three `Preload`ed child collections. -/
structure LoadedService where
  service : MCPService
  capabilities : List Capability
  categories : List Category
  metadata : List MetadataItem

/-- Child capability rows of a service:
`WHERE service_id = id` on the capability table. -/
def childCaps (st : Store) (serviceID : String) : List Capability :=
  st.capabilities.filter (fun c => c.serviceID == serviceID)

/-- Child category rows of a service. -/
def childCats (st : Store) (serviceID : String) : List Category :=
  st.categories.filter (fun c => c.serviceID == serviceID)

/-- Child metadata rows of a service. -/
def childMeta (st : Store) (serviceID : String) : List MetadataItem :=
  st.metadata.filter (fun m => m.serviceID == serviceID)

/-- `DB.Preload(...).First(&s, "id = ?", id)`: the first service row with
the given id together with its child rows, or `none` (gorm
`ErrRecordNotFound`). -/
def loadService (st : Store) (serviceID : String) : Option LoadedService :=
  (st.services.find? (fun s => s.id == serviceID)).map (fun svc =>
    ⟨svc, childCaps st serviceID, childCats st serviceID, childMeta st serviceID⟩)

/-- Failure oracle for the database inserts issued while registering a
service: whether the parent-row insert fails, and whether the insert of the
capability / category / metadata row with a given name or key fails. -/
structure FailSpec where
  svc : Bool
  cap : String → Bool
  cat : String → Bool
  meta : String → Bool

/-- The happy path: every insert succeeds. -/
def FailSpec.noFail : FailSpec := ⟨false, fun _ => false, fun _ => false, fun _ => false⟩

/-- The validation in `CreateServiceHandler`:
`request.Name == "" || request.URL == "" || request.Capabilities == nil || request.Categories == nil`. -/
def missingRequiredFields (request : ServiceRegistrationRequest) : Bool :=
  request.name == "" || request.url == "" ||
    request.capabilities.isNone || request.categories.isNone

/-- The capability-insert loop of `handlers.go`'s `CreateServiceHandler`:
each `h.DB.Create(&capability)` may fail, but its error is ignored and the
loop continues; a failed insert simply writes no row. -/
def insertCapabilitiesSkip (fs : FailSpec) (serviceID : String) :
    List (String × Bool) → Store → Store
  | [], st => st
  | (name, enabled) :: rest, st =>
    insertCapabilitiesSkip fs serviceID rest
      (if fs.cap name then st
       else { st with capabilities := st.capabilities ++ [⟨serviceID, name, enabled⟩] })

/-- The category-insert loop of `handlers.go`'s `CreateServiceHandler`
(errors ignored). -/
def insertCategoriesSkip (fs : FailSpec) (serviceID : String) :
    List String → Store → Store
  | [], st => st
  | name :: rest, st =>
    insertCategoriesSkip fs serviceID rest
      (if fs.cat name then st
       else { st with categories := st.categories ++ [⟨serviceID, name⟩] })

/-- The metadata-insert loop of `handlers.go`'s `CreateServiceHandler`
(errors ignored). -/
def insertMetadataSkip (fs : FailSpec) (serviceID : String) :
    List (String × String) → Store → Store
  | [], st => st
  | (key, value) :: rest, st =>
    insertMetadataSkip fs serviceID rest
      (if fs.meta key then st
       else { st with metadata := st.metadata ++ [⟨serviceID, key, value⟩] })

/-- The all-zero `types.MCPService` Go value: what `createdService` holds in
`handlers.go` if the (unchecked) reload after registration were to fail. -/
def zeroMCPService : MCPService := ⟨"", "", "", "", "", 0, 0⟩

/-- `CreateServiceHandler` from `pkg/handlers/handlers.go` (the
non-transactional version).  `serviceID` stands for the fresh
`uuid.New().String()`, `now` for the handler's `time.Now()` read, and
`tIns` for the clock instant at which `h.DB.Create(&service)` runs (gorm
fills the `autoCreateTime` column `CreatedAt` with it).  Child-row inserts
go through plain `h.DB.Create` with the error ignored. -/
def CreateServiceHandler (fs : FailSpec) (serviceID : String) (now tIns : Int)
    (request : ServiceRegistrationRequest) (st : Store) :
    Store × Except ApiError ServiceResponse :=
  if missingRequiredFields request then (st, .error .validationError)
  else
    let service : MCPService :=
      ⟨serviceID, request.name, request.description, request.url,
        request.apiDocs, tIns, now⟩
    if fs.svc then (st, .error .storeError)
    else
      let st1 : Store := { st with services := st.services ++ [service] }
      let st2 := insertCapabilitiesSkip fs serviceID (request.capabilities.getD []) st1
      let st3 := insertCategoriesSkip fs serviceID (request.categories.getD []) st2
      let st4 := insertMetadataSkip fs serviceID (request.metadata.getD []) st3
      match loadService st4 serviceID with
      | some ls =>
          (st4, .ok (ServiceModelToResponse ls.service ls.capabilities ls.categories ls.metadata))
      | none => (st4, .ok (ServiceModelToResponse zeroMCPService [] [] []))

/-- Transactional capability-insert loop of the repository's transactional
`CreateServiceHandler` variant: the first failing `tx.Create` aborts
(`none`); on success the capability rows are appended in order. -/
def insertCapabilitiesTx (fs : FailSpec) (serviceID : String) :
    List (String × Bool) → Store → Option Store
  | [], st => some st
  | (name, enabled) :: rest, st =>
    if fs.cap name then none
    else insertCapabilitiesTx fs serviceID rest
      { st with capabilities := st.capabilities ++ [⟨serviceID, name, enabled⟩] }

/-- Transactional category-insert loop (first failure aborts). -/
def insertCategoriesTx (fs : FailSpec) (serviceID : String) :
    List String → Store → Option Store
  | [], st => some st
  | name :: rest, st =>
    if fs.cat name then none
    else insertCategoriesTx fs serviceID rest
      { st with categories := st.categories ++ [⟨serviceID, name⟩] }

/-- Transactional metadata-insert loop (first failure aborts). -/
def insertMetadataTx (fs : FailSpec) (serviceID : String) :
    List (String × String) → Store → Option Store
  | [], st => some st
  | (key, value) :: rest, st =>
    if fs.meta key then none
    else insertMetadataTx fs serviceID rest
      { st with metadata := st.metadata ++ [⟨serviceID, key, value⟩] }

/-- The transactional `CreateServiceHandler` variant shipped in the
repository: every insert runs inside `tx := h.DB.Begin()`; the first
failing insert triggers `tx.Rollback()` (the store reverts to its pre-call
state) and a 500 response; only `tx.Commit()` publishes the rows. -/
def CreateServiceHandlerTx (fs : FailSpec) (serviceID : String) (now tIns : Int)
    (request : ServiceRegistrationRequest) (st : Store) :
    Store × Except ApiError ServiceResponse :=
  if missingRequiredFields request then (st, .error .validationError)
  else
    let service : MCPService :=
      ⟨serviceID, request.name, request.description, request.url,
        request.apiDocs, tIns, now⟩
    if fs.svc then (st, .error .storeError)
    else
      let st1 : Store := { st with services := st.services ++ [service] }
      match insertCapabilitiesTx fs serviceID (request.capabilities.getD []) st1 with
      | none => (st, .error .storeError)
      | some st2 =>
        match insertCategoriesTx fs serviceID (request.categories.getD []) st2 with
        | none => (st, .error .storeError)
        | some st3 =>
          match insertMetadataTx fs serviceID (request.metadata.getD []) st3 with
          | none => (st, .error .storeError)
          | some st4 =>
            match loadService st4 serviceID with
            | some ls =>
                (st4, .ok (ServiceModelToResponse ls.service ls.capabilities ls.categories ls.metadata))
            | none => (st4, .error .storeError)

/-- `UpdateServiceHandler` from `pkg/handlers/handlers.go`: load the
existing row (404 if absent), overwrite its scalar columns and `LastSeen`
from the request with no further validation, `Save` it, then for each child
table delete every row of the service and insert the request's collection
(a `nil` collection inserts nothing, emptying the table for this service),
and finally reload for the response. -/
def UpdateServiceHandler (serviceID : String) (now : Int)
    (request : ServiceRegistrationRequest) (st : Store) :
    Store × Except ApiError ServiceResponse :=
  if serviceID == "" then (st, .error .validationError)
  else
    match st.services.find? (fun s => s.id == serviceID) with
    | none => (st, .error .notFound)
    | some existingService =>
      let updated : MCPService :=
        { existingService with
            name := request.name
            description := request.description
            url := request.url
            apiDocs := request.apiDocs
            lastSeen := now }
      let st1 : Store :=
        { st with services := st.services.map (fun s => if s.id == serviceID then updated else s) }
      let st2 : Store :=
        { st1 with capabilities :=
            st1.capabilities.filter (fun c => !(c.serviceID == serviceID)) ++
              (request.capabilities.getD []).map (fun p => ⟨serviceID, p.1, p.2⟩) }
      let st3 : Store :=
        { st2 with categories :=
            st2.categories.filter (fun c => !(c.serviceID == serviceID)) ++
              (request.categories.getD []).map (fun n => ⟨serviceID, n⟩) }
      let st4 : Store :=
        { st3 with metadata :=
            st3.metadata.filter (fun m => !(m.serviceID == serviceID)) ++
              (request.metadata.getD []).map (fun p => ⟨serviceID, p.1, p.2⟩) }
      match loadService st4 serviceID with
      | some ls =>
          (st4, .ok (ServiceModelToResponse ls.service ls.capabilities ls.categories ls.metadata))
      | none => (st4, .ok (ServiceModelToResponse zeroMCPService [] [] []))

/-- `HeartbeatHandler`: load the service row (404 if absent), set
`LastSeen = time.Now()` and `Save` the row; nothing else is touched. -/
def HeartbeatHandler (serviceID : String) (now : Int) (st : Store) :
    Store × Except ApiError Unit :=
  if serviceID == "" then (st, .error .validationError)
  else
    match st.services.find? (fun s => s.id == serviceID) with
    | none => (st, .error .notFound)
    | some service =>
      ({ st with services :=
          st.services.map (fun s => if s.id == serviceID then { service with lastSeen := now } else s) },
        .ok ())

/-- The transactional `DeleteServiceHandler` variant (explicit
unregistration): inside one transaction it deletes the three child
collections and the service row, so the only committed states are the
pre-call store and the fully deleted store. -/
def DeleteServiceHandlerTx (serviceID : String) (st : Store) :
    Store × Except ApiError Unit :=
  if serviceID == "" then (st, .error .validationError)
  else if (st.services.find? (fun s => s.id == serviceID)).isNone then (st, .error .notFound)
  else
    ({ services := st.services.filter (fun s => !(s.id == serviceID))
       capabilities := st.capabilities.filter (fun c => !(c.serviceID == serviceID))
       categories := st.categories.filter (fun c => !(c.serviceID == serviceID))
       metadata := st.metadata.filter (fun m => !(m.serviceID == serviceID)) },
      .ok ())

/-- Charwise ASCII lowercasing of a string, as Postgres `ILIKE` applies to
both its operands (`x ILIKE y` is `lower(x) LIKE lower(y)`). -/
def lowerChars (s : String) : List Char :=
  s.data.map Char.toLower

/-- Modelled from the Postgres semantics of the SQL `LIKE` operator, which
the handler's `name ILIKE ?` where-clause hands the query to: `%` matches
any (possibly empty) run of characters, `_` matches exactly one character,
a backslash escapes the next pattern character, and every other pattern
character matches only itself. -/
def likeMatches : List Char → List Char → Bool
  | [], s => s.isEmpty
  | p :: ps, [] => if p = '%' then likeMatches ps [] else false
  | p :: ps, c :: s =>
    if p = '%' then likeMatches ps (c :: s) || likeMatches (p :: ps) s
    else if p = '\\' then
      match ps with
      | [] => false
      | p' :: ps' => p' == c && likeMatches ps' s
    else if p = '_' then likeMatches ps s
    else p == c && likeMatches ps s
  termination_by p s => (s.length, p.length)

/-- The where-clause of `SearchServicesHandler`:
`name ILIKE '%'+q+'%' OR description ILIKE '%'+q+'%'`, with the raw query
spliced into the pattern unescaped. -/
def searchWhere (q : String) (service : MCPService) : Bool :=
  likeMatches ('%' :: lowerChars q ++ ['%']) (lowerChars service.name) ||
    likeMatches ('%' :: lowerChars q ++ ['%']) (lowerChars service.description)

/-- `SearchServicesHandler`: 400 if the `q` parameter is empty, otherwise
the services matching the `ILIKE` where-clause, each converted with its
preloaded child rows. -/
def SearchServicesHandler (q : String) (st : Store) :
    Store × Except ApiError (List ServiceResponse) :=
  if q == "" then (st, .error .validationError)
  else
    (st, .ok ((st.services.filter (searchWhere q)).map (fun svc =>
      ServiceModelToResponse svc (childCaps st svc.id) (childCats st svc.id) (childMeta st svc.id))))

/-- Plain case-sensitive prefix test on character lists, used to give the
spec-level decidable substring test. -/
def startsWith : List Char → List Char → Bool
  | [], _ => true
  | _ :: _, [] => false
  | a :: as, b :: bs => a == b && startsWith as bs

/-- Decidable substring test: does `q` occur contiguously inside `s`?
This is the spec's notion of "contains the text as a substring". -/
def containsSub (q : List Char) : List Char → Bool
  | [] => startsWith q []
  | c :: t => startsWith q (c :: t) || containsSub q t

/-- `staleAfter` (and the sweep interval) of the pruning loop in `main`:
`1 * time.Hour`, in seconds. -/
def hourSeconds : Int := 3600

/-- `db.Where("service_id = ?", id).Delete(&types.Capability{})` issued by
the pruning loop: an auto-committed statement of its own. -/
def sweepDeleteCapabilities (st : Store) (serviceID : String) : Store :=
  { st with capabilities := st.capabilities.filter (fun c => !(c.serviceID == serviceID)) }

/-- The pruning loop's category delete (auto-committed). -/
def sweepDeleteCategories (st : Store) (serviceID : String) : Store :=
  { st with categories := st.categories.filter (fun c => !(c.serviceID == serviceID)) }

/-- The pruning loop's metadata delete (auto-committed). -/
def sweepDeleteMetadata (st : Store) (serviceID : String) : Store :=
  { st with metadata := st.metadata.filter (fun m => !(m.serviceID == serviceID)) }

/-- The committed store state after the pruning loop ran its three child
deletes for a service but before `db.Delete(&service)`: since the loop uses
the raw `db` handle with no transaction, this intermediate state is durably
visible to concurrent readers. -/
def sweepAfterChildDeletes (st : Store) (serviceID : String) : Store :=
  sweepDeleteMetadata (sweepDeleteCategories (sweepDeleteCapabilities st serviceID) serviceID) serviceID

/-- The pruning loop's full per-service deletion: three child deletes
followed by `db.Delete(&service)` (delete by primary key), four separate
auto-committed statements. -/
def sweepDeleteService (st : Store) (serviceID : String) : Store :=
  { sweepAfterChildDeletes st serviceID with
      services := (sweepAfterChildDeletes st serviceID).services.filter (fun s => !(s.id == serviceID)) }

/-- One wake cycle of the pruning goroutine in `main`: compute
`cutoff = now - 1h`, select the services with `last_seen < cutoff`, and run
the inline per-service deletion for each. -/
def pruneCycle (now : Int) (st : Store) : Store :=
  let cutoff := now - hourSeconds
  let inactiveServices := st.services.filter (fun s => decide (s.lastSeen < cutoff))
  inactiveServices.foldl (fun acc s => sweepDeleteService acc s.id) st

/-- The ids selected for pruning at a given instant: services whose
`last_seen` is older than `now - 1h`. -/
def staleIds (now : Int) (st : Store) : List String :=
  (st.services.filter (fun s => decide (s.lastSeen < now - hourSeconds))).map (fun s => s.id)

/-- A query (lower-cased) free of the SQL `LIKE` metacharacters `%`, `_`
and the escape character backslash. -/
def cleanChars (q : List Char) : Prop :=
  ∀ c ∈ q, c ≠ '%' ∧ c ≠ '_' ∧ c ≠ '\\'

/-- Failure oracle under which exactly the insert of the capability named
`"x"` fails. -/
def failCapX : FailSpec := ⟨false, fun n => n == "x", fun _ => false, fun _ => false⟩

/-- A registration request passing validation, with one capability `"x"`,
an explicitly empty category list and no metadata. -/
def reqOneCap : ServiceRegistrationRequest :=
  ⟨"a", "", "u", "", some [("x", true)], some [], none⟩

/-- A service whose `last_seen` lies two hours in the past of instant 0. -/
def svcStale : MCPService := ⟨"svc-1", "stale", "", "u", "", -9000, -7200⟩

/-- A store holding the stale service and one category row owned by it. -/
def staleStore : Store := ⟨[svcStale], [], [⟨"svc-1", "search"⟩], []⟩

/-- A service whose `last_seen` is 30 minutes in the past of instant 10000. -/
def svcFresh : MCPService := ⟨"svc-2", "fresh", "", "u", "", 0, 8200⟩

/-- A service whose `last_seen` is 2 hours in the past of instant 10000. -/
def svcOld : MCPService := ⟨"svc-3", "old", "", "u", "", 0, 2800⟩

/-- A store holding both services above plus the old one's child rows. -/
def twoServiceStore : Store :=
  ⟨[svcOld, svcFresh], [⟨"svc-3", "c", true⟩], [⟨"svc-3", "t"⟩], [⟨"svc-3", "k", "v"⟩]⟩

/-- A service named `"axb"`, with empty description. -/
def svcAxb : MCPService := ⟨"s1", "axb", "", "u", "", 0, 0⟩

/-- A store holding only `svcAxb`. -/
def axbStore : Store := ⟨[svcAxb], [], [], []⟩

/-- A service named `"Mapping Service"`. -/
def svcMapping : MCPService := ⟨"m1", "Mapping Service", "", "u", "", 0, 0⟩

/-- A service described as `"provides geo-mapping"`. -/
def svcGeo : MCPService := ⟨"m2", "geo", "provides geo-mapping", "u", "", 0, 0⟩

/-- A store holding the two services of the spec's search example. -/
def mapStore : Store := ⟨[svcMapping, svcGeo], [], [], []⟩

/-- A registered service with one row in each child table. -/
def svcBase : MCPService := ⟨"svc-9", "base", "d", "u", "", 5, 5⟩

/-- A store holding `svcBase` and its three child rows. -/
def oneSvcStore : Store :=
  ⟨[svcBase], [⟨"svc-9", "old", true⟩], [⟨"svc-9", "search"⟩], [⟨"svc-9", "k", "v"⟩]⟩

/-- An update payload replacing every collection. -/
def reqUpdate : ServiceRegistrationRequest :=
  ⟨"newname", "nd", "nu", "", some [("cap1", true)], some ["index"], some [("mk", "mv")]⟩

/-- The fully empty decodable payload: empty strings, all collections
absent. -/
def reqEmptyUpdate : ServiceRegistrationRequest := ⟨"", "", "", "", none, none, none⟩

/-! ## Pattern-matching theory for the search where-clause -/

theorem startsWith_iff (q s : List Char) :
    startsWith q s = true ↔ ∃ b, s = q ++ b := by
  induction q generalizing s with
  | nil => simp [startsWith]
  | cons a as ih =>
    cases s with
    | nil => simp [startsWith]
    | cons b bs =>
      simp only [startsWith, Bool.and_eq_true, beq_iff_eq, ih, List.cons_append,
        List.cons.injEq]
      constructor
      · rintro ⟨rfl, t, rfl⟩; exact ⟨t, rfl, rfl⟩
      · rintro ⟨t, rfl, rfl⟩; exact ⟨rfl, t, rfl⟩

theorem containsSub_iff (q s : List Char) :
    containsSub q s = true ↔ ∃ a b, s = a ++ q ++ b := by
  induction s with
  | nil =>
    simp only [containsSub, startsWith_iff]
    constructor
    · rintro ⟨b, h⟩; exact ⟨[], b, by simpa using h⟩
    · rintro ⟨a, b, h⟩
      have h' := h.symm
      simp only [List.append_assoc, List.append_eq_nil] at h'
      exact ⟨[], by simp [h'.2.1]⟩
  | cons c t ih =>
    simp only [containsSub, Bool.or_eq_true, startsWith_iff, ih]
    constructor
    · rintro (⟨b, h⟩ | ⟨a, b, h⟩)
      · exact ⟨[], b, by simpa using h⟩
      · exact ⟨c :: a, b, by simp [h]⟩
    · rintro ⟨a, b, h⟩
      cases a with
      | nil => exact Or.inl ⟨b, by simpa using h⟩
      | cons a' as =>
        simp only [List.cons_append, List.cons.injEq] at h
        exact Or.inr ⟨as, b, h.2⟩

theorem likeMatches_pct_nil (ps : List Char) :
    likeMatches ('%' :: ps) [] = likeMatches ps [] := by
  rw [likeMatches.eq_def]; simp

theorem likeMatches_pct_cons (ps : List Char) (c : Char) (s : List Char) :
    likeMatches ('%' :: ps) (c :: s) =
      (likeMatches ps (c :: s) || likeMatches ('%' :: ps) s) := by
  rw [likeMatches.eq_def]; simp

theorem likeMatches_lit_nil (a : Char) (ps : List Char) (ha1 : a ≠ '%') :
    likeMatches (a :: ps) [] = false := by
  rw [likeMatches.eq_def]; simp [ha1]

theorem likeMatches_lit_cons (a : Char) (ps : List Char) (c : Char) (s : List Char)
    (ha1 : a ≠ '%') (ha2 : a ≠ '_') (ha3 : a ≠ '\\') :
    likeMatches (a :: ps) (c :: s) = (a == c && likeMatches ps s) := by
  rw [likeMatches.eq_def]; simp [ha1, ha2, ha3]

theorem likeMatches_allPct (s : List Char) : likeMatches ['%'] s = true := by
  induction s with
  | nil => rw [likeMatches_pct_nil]; rw [likeMatches.eq_def]; rfl
  | cons c t ih => rw [likeMatches_pct_cons, ih]; simp

theorem likeMatches_lit (q : List Char) (hq : cleanChars q) (s : List Char) :
    likeMatches (q ++ ['%']) s = true ↔ ∃ b, s = q ++ b := by
  induction q generalizing s with
  | nil => simpa using likeMatches_allPct s
  | cons a as ih =>
    obtain ⟨ha1, ha2, ha3⟩ := hq a (by simp)
    have hq' : cleanChars as := fun c hc => hq c (by simp [hc])
    cases s with
    | nil =>
      rw [List.cons_append, likeMatches_lit_nil a _ ha1]
      simp
    | cons b bs =>
      rw [List.cons_append, likeMatches_lit_cons a _ b bs ha1 ha2 ha3]
      simp only [Bool.and_eq_true, beq_iff_eq, ih hq', List.cons_append, List.cons.injEq]
      constructor
      · rintro ⟨rfl, t, rfl⟩; exact ⟨t, rfl, rfl⟩
      · rintro ⟨t, rfl, rfl⟩; exact ⟨rfl, t, rfl⟩

theorem likeMatches_pct (ps s : List Char) :
    likeMatches ('%' :: ps) s = true ↔ ∃ a t, s = a ++ t ∧ likeMatches ps t = true := by
  induction s with
  | nil =>
    rw [likeMatches_pct_nil]
    constructor
    · intro h; exact ⟨[], [], rfl, h⟩
    · rintro ⟨a, t, h, ht⟩
      have h' := h.symm
      simp only [List.append_eq_nil] at h'
      rw [← h'.2]; exact ht
  | cons c t ih =>
    rw [likeMatches_pct_cons]
    simp only [Bool.or_eq_true, ih]
    constructor
    · rintro (h | ⟨a, u, rfl, hu⟩)
      · exact ⟨[], c :: t, rfl, h⟩
      · exact ⟨c :: a, u, rfl, hu⟩
    · rintro ⟨a, u, h, hu⟩
      cases a with
      | nil =>
        have hu' : u = c :: t := by simpa using h.symm
        subst hu'
        exact Or.inl hu
      | cons a' as =>
        simp only [List.cons_append, List.cons.injEq] at h
        exact Or.inr ⟨as, u, h.2, hu⟩

theorem likeMatches_contains (q : List Char) (hq : cleanChars q) (s : List Char) :
    likeMatches ('%' :: q ++ ['%']) s = true ↔ ∃ a b, s = a ++ q ++ b := by
  rw [List.cons_append, likeMatches_pct]
  constructor
  · rintro ⟨a, t, rfl, ht⟩
    obtain ⟨b, rfl⟩ := (likeMatches_lit q hq t).mp ht
    exact ⟨a, b, by simp⟩
  · rintro ⟨a, b, rfl⟩
    exact ⟨a, q ++ b, by simp, (likeMatches_lit q hq _).mpr ⟨b, rfl⟩⟩

theorem likeMatches_eq_containsSub (q : List Char) (hq : cleanChars q) (s : List Char) :
    likeMatches ('%' :: q ++ ['%']) s = containsSub q s := by
  rw [Bool.eq_iff_iff, likeMatches_contains q hq, containsSub_iff]

/-! ## Store helper lemmas -/

theorem insertCapabilitiesSkip_services (fs : FailSpec) (id : String)
    (l : List (String × Bool)) (st : Store) :
    (insertCapabilitiesSkip fs id l st).services = st.services := by
  induction l generalizing st with
  | nil => rfl
  | cons p rest ih =>
    obtain ⟨n, e⟩ := p
    simp only [insertCapabilitiesSkip]
    rw [ih]
    split <;> rfl

theorem insertCategoriesSkip_services (fs : FailSpec) (id : String)
    (l : List String) (st : Store) :
    (insertCategoriesSkip fs id l st).services = st.services := by
  induction l generalizing st with
  | nil => rfl
  | cons n rest ih =>
    simp only [insertCategoriesSkip]
    rw [ih]
    split <;> rfl

theorem insertMetadataSkip_services (fs : FailSpec) (id : String)
    (l : List (String × String)) (st : Store) :
    (insertMetadataSkip fs id l st).services = st.services := by
  induction l generalizing st with
  | nil => rfl
  | cons p rest ih =>
    obtain ⟨k, v⟩ := p
    simp only [insertMetadataSkip]
    rw [ih]
    split <;> rfl

theorem insertCapabilitiesSkip_noFail (id : String)
    (l : List (String × Bool)) (st : Store) :
    insertCapabilitiesSkip FailSpec.noFail id l st =
      { st with capabilities := st.capabilities ++ l.map (fun p => ⟨id, p.1, p.2⟩) } := by
  induction l generalizing st with
  | nil => simp [insertCapabilitiesSkip]
  | cons p rest ih =>
    obtain ⟨n, e⟩ := p
    simp only [insertCapabilitiesSkip, show FailSpec.noFail.cap n = false from rfl,
      Bool.false_eq_true, if_false]
    rw [ih]
    simp

theorem insertCategoriesSkip_noFail (id : String)
    (l : List String) (st : Store) :
    insertCategoriesSkip FailSpec.noFail id l st =
      { st with categories := st.categories ++ l.map (fun n => ⟨id, n⟩) } := by
  induction l generalizing st with
  | nil => simp [insertCategoriesSkip]
  | cons n rest ih =>
    simp only [insertCategoriesSkip, show FailSpec.noFail.cat n = false from rfl,
      Bool.false_eq_true, if_false]
    rw [ih]
    simp

theorem insertMetadataSkip_noFail (id : String)
    (l : List (String × String)) (st : Store) :
    insertMetadataSkip FailSpec.noFail id l st =
      { st with metadata := st.metadata ++ l.map (fun p => ⟨id, p.1, p.2⟩) } := by
  induction l generalizing st with
  | nil => simp [insertMetadataSkip]
  | cons p rest ih =>
    obtain ⟨k, v⟩ := p
    simp only [insertMetadataSkip, show FailSpec.noFail.meta k = false from rfl,
      Bool.false_eq_true, if_false]
    rw [ih]
    simp

theorem insertCapabilitiesTx_eq_none (fs : FailSpec) (id : String)
    (l : List (String × Bool)) (st : Store) :
    insertCapabilitiesTx fs id l st = none ↔ ∃ p ∈ l, fs.cap p.1 = true := by
  induction l generalizing st with
  | nil => simp [insertCapabilitiesTx]
  | cons p rest ih =>
    obtain ⟨n, e⟩ := p
    by_cases h : fs.cap n = true
    · constructor
      · intro _; exact ⟨(n, e), by simp, h⟩
      · intro _; simp [insertCapabilitiesTx, if_pos h]
    · simp only [insertCapabilitiesTx, if_neg h, ih]
      constructor
      · rintro ⟨p, hp, hfail⟩; exact ⟨p, by simp [hp], hfail⟩
      · rintro ⟨p, hp, hfail⟩
        rcases List.mem_cons.mp hp with rfl | hp'
        · exact absurd hfail h
        · exact ⟨p, hp', hfail⟩

theorem insertCategoriesTx_eq_none (fs : FailSpec) (id : String)
    (l : List String) (st : Store) :
    insertCategoriesTx fs id l st = none ↔ ∃ n ∈ l, fs.cat n = true := by
  induction l generalizing st with
  | nil => simp [insertCategoriesTx]
  | cons n rest ih =>
    by_cases h : fs.cat n = true
    · constructor
      · intro _; exact ⟨n, by simp, h⟩
      · intro _; simp [insertCategoriesTx, if_pos h]
    · simp only [insertCategoriesTx, if_neg h, ih]
      constructor
      · rintro ⟨m, hm, hfail⟩; exact ⟨m, by simp [hm], hfail⟩
      · rintro ⟨m, hm, hfail⟩
        rcases List.mem_cons.mp hm with rfl | hm'
        · exact absurd hfail h
        · exact ⟨m, hm', hfail⟩

theorem insertMetadataTx_eq_none (fs : FailSpec) (id : String)
    (l : List (String × String)) (st : Store) :
    insertMetadataTx fs id l st = none ↔ ∃ p ∈ l, fs.meta p.1 = true := by
  induction l generalizing st with
  | nil => simp [insertMetadataTx]
  | cons p rest ih =>
    obtain ⟨k, v⟩ := p
    by_cases h : fs.meta k = true
    · constructor
      · intro _; exact ⟨(k, v), by simp, h⟩
      · intro _; simp [insertMetadataTx, if_pos h]
    · simp only [insertMetadataTx, if_neg h, ih]
      constructor
      · rintro ⟨p, hp, hfail⟩; exact ⟨p, by simp [hp], hfail⟩
      · rintro ⟨p, hp, hfail⟩
        rcases List.mem_cons.mp hp with rfl | hp'
        · exact absurd hfail h
        · exact ⟨p, hp', hfail⟩

theorem find?_map_replace (l : List MCPService) (id : String) (upd : MCPService)
    (hupd : (upd.id == id) = true) (h : (l.find? (fun s => s.id == id)).isSome) :
    (l.map (fun s => if s.id == id then upd else s)).find? (fun s => s.id == id) = some upd := by
  induction l with
  | nil => simp [List.find?] at h
  | cons a t ih =>
    by_cases ha : (a.id == id) = true
    · simp only [List.map_cons, if_pos ha]
      exact List.find?_cons_of_pos _ hupd
    · have ha' : (a.id == id) = false := by simpa using ha
      simp only [List.map_cons, if_neg ha]
      simp only [List.find?_cons, ha'] at h ⊢
      exact ih h

theorem filter_map_replace (l : List MCPService) (id : String) (upd : MCPService)
    (hupd : (upd.id == id) = true) :
    (l.map (fun s => if s.id == id then upd else s)).filter (fun s => !(s.id == id)) =
      l.filter (fun s => !(s.id == id)) := by
  induction l with
  | nil => rfl
  | cons a t ih =>
    by_cases ha : (a.id == id) = true
    · simp only [List.map_cons, if_pos ha, List.filter_cons, ih]
      simp [hupd, show a.id = id from by simpa using ha]
    · have ha' : (a.id == id) = false := by simpa using ha
      simp only [List.map_cons, if_neg ha, List.filter_cons, ih]

theorem find?_append_last (l : List MCPService) (a : MCPService) (p : MCPService → Bool)
    (hl : ∀ x ∈ l, ¬ p x = true) (ha : p a = true) :
    (l ++ [a]).find? p = some a := by
  induction l with
  | nil =>
    simp only [List.nil_append]
    exact List.find?_cons_of_pos [] ha
  | cons b t ih =>
    have hb : p b = false := by simpa using hl b (by simp)
    rw [List.cons_append, List.find?_cons, hb]
    exact ih (fun x hx => hl x (by simp [hx]))

theorem mapInsert_not_mem {α : Type} (m : List (String × α)) (k : String) (v : α)
    (h : ∀ p ∈ m, p.1 ≠ k) : mapInsert m k v = m ++ [(k, v)] := by
  induction m with
  | nil => rfl
  | cons q t ih =>
    obtain ⟨k', v'⟩ := q
    have hk : ¬(k' == k) = true := by simpa using h (k', v') (by simp)
    simp only [mapInsert, if_neg hk, List.cons_append, List.cons.injEq, true_and]
    exact ih (fun p hp => h p (by simp [hp]))

theorem foldl_mapInsert_nodup {α : Type} (pairs : List (String × α)) :
    ∀ acc : List (String × α), (((acc ++ pairs).map Prod.fst).Nodup) →
      pairs.foldl (fun m p => mapInsert m p.1 p.2) acc = acc ++ pairs := by
  induction pairs with
  | nil => intro acc _; simp
  | cons p rest ih =>
    intro acc h
    rw [List.foldl_cons]
    have h' : ((acc.map Prod.fst) ++ (p.1 :: rest.map Prod.fst)).Nodup := by
      simpa using h
    have hdisj := (List.nodup_append.mp h').2.2
    have hmem : ∀ q ∈ acc, q.1 ≠ p.1 := by
      intro q hq hqp
      exact hdisj (List.mem_map_of_mem Prod.fst hq) (by simp [hqp])
    rw [mapInsert_not_mem acc p.1 p.2 hmem]
    have h2 : ((((acc ++ [p]) ++ rest)).map Prod.fst).Nodup := by
      simpa [List.append_assoc] using h
    have := ih (acc ++ [p]) h2
    simpa [List.append_assoc] using this

theorem sweepDeleteService_eq (st : Store) (id : String) :
    sweepDeleteService st id =
      { services := st.services.filter (fun s => !(s.id == id)),
        capabilities := st.capabilities.filter (fun c => !(c.serviceID == id)),
        categories := st.categories.filter (fun c => !(c.serviceID == id)),
        metadata := st.metadata.filter (fun m => !(m.serviceID == id)) } := rfl

theorem foldl_sweepDeleteService (L : List MCPService) (st : Store) :
    L.foldl (fun acc s => sweepDeleteService acc s.id) st =
      { services := st.services.filter (fun x => !((L.map (fun s => s.id)).contains x.id)),
        capabilities := st.capabilities.filter (fun c => !((L.map (fun s => s.id)).contains c.serviceID)),
        categories := st.categories.filter (fun c => !((L.map (fun s => s.id)).contains c.serviceID)),
        metadata := st.metadata.filter (fun m => !((L.map (fun s => s.id)).contains m.serviceID)) } := by
  induction L generalizing st with
  | nil => simp
  | cons a L' ih =>
    rw [List.foldl_cons, ih, sweepDeleteService_eq]
    simp only [List.map_cons, List.filter_filter]
    congr 1 <;> exact List.filter_congr (fun x hx => by simp [Bool.and_comm, Bool.beq_eq_decide_eq])

theorem contains_staleIds (now : Int) (st : Store)
    (hnodup : (st.services.map (fun s => s.id)).Nodup)
    (x : MCPService) (hx : x ∈ st.services) :
    (staleIds now st).contains x.id = decide (x.lastSeen < now - hourSeconds) := by
  rw [Bool.eq_iff_iff, decide_eq_true_iff]
  simp only [List.contains, List.elem_eq_mem, decide_eq_true_iff, staleIds]
  constructor
  · intro hmem
    obtain ⟨t, ht, hid⟩ := List.mem_map.mp hmem
    obtain ⟨hts, htstale⟩ := List.mem_filter.mp ht
    have heq : t = x := List.inj_on_of_nodup_map hnodup hts hx hid
    subst heq
    simpa using htstale
  · intro hstale
    exact List.mem_map_of_mem _ (List.mem_filter.mpr ⟨hx, by simpa using hstale⟩)

/-! ## Claim C2 -/

/-- C2 falsified at a concrete input: one sweep cycle does remove the stale
service, but the deletion is the pruning loop's own stepwise path, not the
atomic unregister primitive: after its three auto-committed child deletes
and before `db.Delete(&service)`, the committed store still holds the
parent service row while its category rows are already gone — a state
distinct from both the pre-delete and the post-delete store, which a
deletion performed as one atomic unit never exposes to readers. -/
theorem claim2_counterexample :
    sweepAfterChildDeletes staleStore "svc-1" ≠ staleStore ∧
    sweepAfterChildDeletes staleStore "svc-1" ≠ (DeleteServiceHandlerTx "svc-1" staleStore).1 ∧
    (sweepAfterChildDeletes staleStore "svc-1").services = [svcStale] ∧
    staleStore.categories ≠ [] ∧
    (sweepAfterChildDeletes staleStore "svc-1").categories = [] ∧
    pruneCycle 0 staleStore = Store.empty := by decide

/-- C2 (amended): each wake cycle of the pruning loop removes exactly the
services whose `last_seen` is older than `now` minus one hour, together
with all their child rows, so with `staleAfter = 1h` a service last seen 2h
ago is removed by one cycle and one last seen 30m ago survives; but the
removal goes through the sweeper's own stepwise deletion path (three child
deletes, then the parent delete, each a separately committed statement),
not through the atomic unregister primitive. -/
theorem claim2_sweeper (now : Int) (st : Store)
    (hnodup : (st.services.map (fun s => s.id)).Nodup) :
    (pruneCycle now st).services =
      st.services.filter (fun s => !decide (s.lastSeen < now - hourSeconds)) ∧
    (pruneCycle now st).capabilities =
      st.capabilities.filter (fun c => !((staleIds now st).contains c.serviceID)) ∧
    (pruneCycle now st).categories =
      st.categories.filter (fun c => !((staleIds now st).contains c.serviceID)) ∧
    (pruneCycle now st).metadata =
      st.metadata.filter (fun m => !((staleIds now st).contains m.serviceID)) := by
  have h := foldl_sweepDeleteService
    (st.services.filter (fun s => decide (s.lastSeen < now - hourSeconds))) st
  simp only [pruneCycle]
  rw [h]
  refine ⟨?_, rfl, rfl, rfl⟩
  exact List.filter_congr (fun x hx => congrArg Bool.not (contains_staleIds now st hnodup x hx))

/-- Witness for C2's amended theorem: at instant 10000, the sweep keeps
exactly the service last seen 30 minutes ago (`svcFresh`) and removes the
one last seen two hours ago (`svcOld`). -/
theorem claim2_sweeper_witness :
    ((pruneCycle 10000 twoServiceStore).services =
      twoServiceStore.services.filter (fun s => !decide (s.lastSeen < 10000 - hourSeconds))) ∧
    twoServiceStore.services.filter (fun s => !decide (s.lastSeen < 10000 - hourSeconds)) = [svcFresh] ∧
    svcOld.lastSeen = 10000 - 7200 ∧ svcFresh.lastSeen = 10000 - 1800 :=
  ⟨(claim2_sweeper 10000 twoServiceStore (by decide)).1, by decide, by decide, by decide⟩

/-! ## Claim C1 -/

/-- C1 falsified at a concrete input, against the non-transactional
`CreateServiceHandler` of `pkg/handlers/handlers.go`: with the insert of
capability `"x"` failing, the call does not fail with a store error — it
answers 201 with the capability silently missing — and the service row
written by the call remains committed, so the store does not hold its
pre-call state. -/
theorem claim1_counterexample :
    failCapX.cap "x" = true ∧
    (CreateServiceHandler failCapX "svc-1" 0 0 reqOneCap Store.empty).2 =
      Except.ok (⟨"svc-1", "a", "", "u", [], [], 0, 0, []⟩ : ServiceResponse) ∧
    (CreateServiceHandler failCapX "svc-1" 0 0 reqOneCap Store.empty).1 ≠ Store.empty ∧
    ((CreateServiceHandler failCapX "svc-1" 0 0 reqOneCap Store.empty).1).services.map
      (fun s => s.id) = ["svc-1"] :=
  ⟨rfl, rfl, by decide, by decide⟩

/-- C1 (amended): in the non-transactional `CreateServiceHandler` of
`handlers.go`, only a failure of the service-row insert aborts the call
with a store error and leaves the store untouched (child-row insert
failures are ignored); in the transactional `CreateServiceHandler` variant
also shipped in the repository, a failure of any insert — service row or
any capability/category/metadata child row — rolls the transaction back,
fails the call with a store error, and leaves the store exactly as it was
before the call. -/
theorem claim1_register_atomicity :
    (∀ (fs : FailSpec) (serviceID : String) (now tIns : Int)
        (request : ServiceRegistrationRequest) (st : Store),
        missingRequiredFields request = false → fs.svc = true →
        CreateServiceHandler fs serviceID now tIns request st = (st, .error .storeError)) ∧
    (∀ (fs : FailSpec) (serviceID : String) (now tIns : Int)
        (request : ServiceRegistrationRequest) (st : Store),
        missingRequiredFields request = false →
        (fs.svc = true ∨ (∃ p ∈ request.capabilities.getD [], fs.cap p.1 = true) ∨
          (∃ n ∈ request.categories.getD [], fs.cat n = true) ∨
          (∃ p ∈ request.metadata.getD [], fs.meta p.1 = true)) →
        CreateServiceHandlerTx fs serviceID now tIns request st = (st, .error .storeError)) := by
  constructor
  · intro fs serviceID now tIns request st hval hsvc
    simp only [CreateServiceHandler, hval, Bool.false_eq_true, if_false, hsvc, if_true]
  · intro fs serviceID now tIns request st hval hfail
    simp only [CreateServiceHandlerTx, hval, Bool.false_eq_true, if_false]
    by_cases hsvc : fs.svc = true
    · simp [hsvc]
    · have hsvcF : fs.svc = false := by simpa using hsvc
      simp only [hsvcF, Bool.false_eq_true, if_false]
      split
      · rfl
      · rename_i st2 hc
        split
        · rfl
        · rename_i st3 hct
          split
          · rfl
          · rename_i st4 hm
            exfalso
            rcases hfail with hsvc' | hcap | hcatF | hmetaF
            · exact hsvc hsvc'
            · exact Option.noConfusion
                (((insertCapabilitiesTx_eq_none fs serviceID _ _).mpr hcap).symm.trans hc)
            · exact Option.noConfusion
                (((insertCategoriesTx_eq_none fs serviceID _ _).mpr hcatF).symm.trans hct)
            · exact Option.noConfusion
                (((insertMetadataTx_eq_none fs serviceID _ _).mpr hmetaF).symm.trans hm)

/-- Witness for C1's amended theorem: the transactional registration with
the failing capability insert rolls back to the empty store and reports a
store error. -/
theorem claim1_register_atomicity_witness :
    CreateServiceHandlerTx failCapX "svc-1" 0 0 reqOneCap Store.empty =
      (Store.empty, .error .storeError) :=
  claim1_register_atomicity.2 failCapX "svc-1" 0 0 reqOneCap Store.empty rfl
    (Or.inr (Or.inl ⟨("x", true), by decide, rfl⟩))

theorem UpdateServiceHandler_run (serviceID : String) (now : Int)
    (request : ServiceRegistrationRequest) (st : Store) (svc : MCPService)
    (hid : (serviceID == "") = false)
    (hfind : st.services.find? (fun s => s.id == serviceID) = some svc) :
    (UpdateServiceHandler serviceID now request st).1 =
      { services := st.services.map (fun s => if s.id == serviceID then
            { svc with name := request.name, description := request.description,
                       url := request.url, apiDocs := request.apiDocs,
                       lastSeen := now } else s),
        capabilities := st.capabilities.filter (fun c => !(c.serviceID == serviceID)) ++
            (request.capabilities.getD []).map (fun p => ⟨serviceID, p.1, p.2⟩),
        categories := st.categories.filter (fun c => !(c.serviceID == serviceID)) ++
            (request.categories.getD []).map (fun n => ⟨serviceID, n⟩),
        metadata := st.metadata.filter (fun m => !(m.serviceID == serviceID)) ++
            (request.metadata.getD []).map (fun p => ⟨serviceID, p.1, p.2⟩) } ∧
    ∃ resp, (UpdateServiceHandler serviceID now request st).2 = Except.ok resp := by
  simp only [UpdateServiceHandler, hid, Bool.false_eq_true, if_false, hfind]
  constructor
  · split <;> rfl
  · split <;> exact ⟨_, rfl⟩

/-! ## Claim C3 -/

/-- C3: after a successful Update of an existing service, the capability,
category and metadata tables hold, for that service, exactly one row per
entry of the new payload (a `nil` collection yields no rows): the old rows
are gone and nothing beyond the payload remains — full-replace, not
merge. -/
theorem claim3_update_full_replace (serviceID : String) (now : Int)
    (request : ServiceRegistrationRequest) (st : Store) (svc : MCPService)
    (hid : (serviceID == "") = false)
    (hfind : st.services.find? (fun s => s.id == serviceID) = some svc) :
    ((UpdateServiceHandler serviceID now request st).1.capabilities.filter
        (fun c => c.serviceID == serviceID) =
      (request.capabilities.getD []).map (fun p => ⟨serviceID, p.1, p.2⟩)) ∧
    ((UpdateServiceHandler serviceID now request st).1.categories.filter
        (fun c => c.serviceID == serviceID) =
      (request.categories.getD []).map (fun n => ⟨serviceID, n⟩)) ∧
    ((UpdateServiceHandler serviceID now request st).1.metadata.filter
        (fun m => m.serviceID == serviceID) =
      (request.metadata.getD []).map (fun p => ⟨serviceID, p.1, p.2⟩)) ∧
    ∃ resp, (UpdateServiceHandler serviceID now request st).2 = Except.ok resp := by
  obtain ⟨hstore, hok⟩ := UpdateServiceHandler_run serviceID now request st svc hid hfind
  refine ⟨?_, ?_, ?_, hok⟩ <;> rw [hstore] <;>
    simp [List.filter_append, List.filter_filter, List.filter_map, Function.comp_def,
      List.filter_true]

/-- Witness for C3: updating the registered service `svc-9` with payload
`reqUpdate` leaves exactly the payload's capability rows in its capability
table; concretely the one row `cap1`, while the pre-update row `old` is
gone. -/
theorem claim3_update_full_replace_witness :
    ((UpdateServiceHandler "svc-9" 6 reqUpdate oneSvcStore).1.capabilities.filter
        (fun c => c.serviceID == "svc-9") =
      (reqUpdate.capabilities.getD []).map (fun p => ⟨"svc-9", p.1, p.2⟩)) ∧
    (reqUpdate.capabilities.getD []).map
        (fun p => (⟨"svc-9", p.1, p.2⟩ : Capability)) = [⟨"svc-9", "cap1", true⟩] :=
  ⟨(claim3_update_full_replace "svc-9" 6 reqUpdate oneSvcStore svcBase rfl (by decide)).1,
    by decide⟩

/-! ## Claim C8 -/

/-- C8: Update is idempotent on the stored collections — running the same
payload twice against an existing service leaves the capability, category
and metadata tables exactly as after the first run (entries are not
doubled and nothing extra is retained). -/
theorem claim8_update_idempotent (serviceID : String) (now1 now2 : Int)
    (request : ServiceRegistrationRequest) (st : Store) (svc : MCPService)
    (hid : (serviceID == "") = false)
    (hfind : st.services.find? (fun s => s.id == serviceID) = some svc) :
    ((UpdateServiceHandler serviceID now2 request
        (UpdateServiceHandler serviceID now1 request st).1).1.capabilities =
      (UpdateServiceHandler serviceID now1 request st).1.capabilities) ∧
    ((UpdateServiceHandler serviceID now2 request
        (UpdateServiceHandler serviceID now1 request st).1).1.categories =
      (UpdateServiceHandler serviceID now1 request st).1.categories) ∧
    ((UpdateServiceHandler serviceID now2 request
        (UpdateServiceHandler serviceID now1 request st).1).1.metadata =
      (UpdateServiceHandler serviceID now1 request st).1.metadata) := by
  have hsvcid : (svc.id == serviceID) = true := by
    have h := List.find?_some hfind
    simpa using h
  obtain ⟨hstore1, -⟩ := UpdateServiceHandler_run serviceID now1 request st svc hid hfind
  have hfind1 : (UpdateServiceHandler serviceID now1 request st).1.services.find?
      (fun s => s.id == serviceID) = some
        { svc with name := request.name, description := request.description,
                   url := request.url, apiDocs := request.apiDocs, lastSeen := now1 } := by
    rw [hstore1]
    exact find?_map_replace st.services serviceID _ (by exact hsvcid) (by rw [hfind]; rfl)
  obtain ⟨hstore2, -⟩ := UpdateServiceHandler_run serviceID now2 request _ _ hid hfind1
  rw [hstore2, hstore1]
  refine ⟨?_, ?_, ?_⟩ <;>
    simp [List.filter_append, List.filter_filter, List.filter_map, Function.comp_def]

/-- Witness for C8: updating `svc-9` twice with the same payload leaves the
capability table of the first run unchanged — concretely the single row
`cap1`, not doubled. -/
theorem claim8_update_idempotent_witness :
    ((UpdateServiceHandler "svc-9" 7 reqUpdate
        (UpdateServiceHandler "svc-9" 6 reqUpdate oneSvcStore).1).1.capabilities =
      (UpdateServiceHandler "svc-9" 6 reqUpdate oneSvcStore).1.capabilities) ∧
    (UpdateServiceHandler "svc-9" 6 reqUpdate oneSvcStore).1.capabilities =
      [⟨"svc-9", "cap1", true⟩] :=
  ⟨(claim8_update_idempotent "svc-9" 6 7 reqUpdate oneSvcStore svcBase rfl (by decide)).1,
    by decide⟩

/-! ## Claim C10 -/

/-- C10: Update validates nothing beyond JSON decodability — for any
existing id and any decodable payload, including one with empty name and
url and absent collections, it succeeds (the reply is 200 with a body,
never a validation error), overwrites the stored scalar columns with the
payload's values, and replaces the collections with the payload's
(absent collections yielding no rows). -/
theorem claim10_update_no_validation (serviceID : String) (now : Int)
    (request : ServiceRegistrationRequest) (st : Store) (svc : MCPService)
    (hid : (serviceID == "") = false)
    (hfind : st.services.find? (fun s => s.id == serviceID) = some svc) :
    (∃ resp, (UpdateServiceHandler serviceID now request st).2 = Except.ok resp) ∧
    ((UpdateServiceHandler serviceID now request st).1.services.find?
        (fun s => s.id == serviceID) = some
      { svc with name := request.name, description := request.description,
                 url := request.url, apiDocs := request.apiDocs, lastSeen := now }) ∧
    ((UpdateServiceHandler serviceID now request st).1.capabilities.filter
        (fun c => c.serviceID == serviceID) =
      (request.capabilities.getD []).map (fun p => ⟨serviceID, p.1, p.2⟩)) ∧
    ((UpdateServiceHandler serviceID now request st).1.categories.filter
        (fun c => c.serviceID == serviceID) =
      (request.categories.getD []).map (fun n => ⟨serviceID, n⟩)) ∧
    ((UpdateServiceHandler serviceID now request st).1.metadata.filter
        (fun m => m.serviceID == serviceID) =
      (request.metadata.getD []).map (fun p => ⟨serviceID, p.1, p.2⟩)) := by
  have hsvcid : (svc.id == serviceID) = true := by
    have h := List.find?_some hfind
    simpa using h
  obtain ⟨hstore, hok⟩ := UpdateServiceHandler_run serviceID now request st svc hid hfind
  refine ⟨hok, ?_, ?_, ?_, ?_⟩
  · rw [hstore]
    exact find?_map_replace st.services serviceID _ (by exact hsvcid) (by rw [hfind]; rfl)
  all_goals rw [hstore]
  all_goals simp [List.filter_append, List.filter_filter, List.filter_map,
    Function.comp_def, List.filter_true]

/-- Witness for C10: updating `svc-9` with the fully empty payload (empty
name, empty url, all collections absent) succeeds and empties its child
tables, overwriting name and url with empty strings. -/
theorem claim10_update_no_validation_witness :
    (∃ resp, (UpdateServiceHandler "svc-9" 6 reqEmptyUpdate oneSvcStore).2 = Except.ok resp) ∧
    ((UpdateServiceHandler "svc-9" 6 reqEmptyUpdate oneSvcStore).1.services.find?
        (fun s => s.id == "svc-9") = some
      { svcBase with name := reqEmptyUpdate.name, description := reqEmptyUpdate.description,
                     url := reqEmptyUpdate.url, apiDocs := reqEmptyUpdate.apiDocs,
                     lastSeen := 6 }) ∧
    (UpdateServiceHandler "svc-9" 6 reqEmptyUpdate oneSvcStore).1.capabilities = [] :=
  ⟨(claim10_update_no_validation "svc-9" 6 reqEmptyUpdate oneSvcStore svcBase rfl (by decide)).1,
    (claim10_update_no_validation "svc-9" 6 reqEmptyUpdate oneSvcStore svcBase rfl (by decide)).2.1,
    by decide⟩

/-! ## Claim C4 -/

/-- C4: Register fails with a validation error, leaving the store
untouched, exactly when the name is empty, the url is empty, the
capabilities map is nil (absent), or the categories slice is nil (absent);
in particular an explicitly supplied empty collection passes validation and
a nil metadata map is always accepted (it is never checked). -/
theorem claim4_register_validation (fs : FailSpec) (serviceID : String) (now tIns : Int)
    (request : ServiceRegistrationRequest) (st : Store) :
    ((CreateServiceHandler fs serviceID now tIns request st).2 =
        Except.error ApiError.validationError ↔
      (request.name = "" ∨ request.url = "" ∨
        request.capabilities = none ∨ request.categories = none)) ∧
    ((request.name = "" ∨ request.url = "" ∨
        request.capabilities = none ∨ request.categories = none) →
      CreateServiceHandler fs serviceID now tIns request st =
        (st, Except.error ApiError.validationError)) := by
  have hmiss : missingRequiredFields request = true ↔
      (request.name = "" ∨ request.url = "" ∨
        request.capabilities = none ∨ request.categories = none) := by
    simp [missingRequiredFields, Option.isNone_iff_eq_none, or_assoc]
  constructor
  · by_cases h : missingRequiredFields request = true
    · simp only [CreateServiceHandler, h, if_true]
      simpa using hmiss.mp h
    · have hF : missingRequiredFields request = false := by simpa using h
      simp only [CreateServiceHandler, hF, Bool.false_eq_true, if_false]
      constructor
      · intro hcontra
        exfalso
        by_cases hsvc : fs.svc = true
        · simp [hsvc] at hcontra
        · have hsvcF : fs.svc = false := by simpa using hsvc
          simp only [hsvcF, Bool.false_eq_true, if_false] at hcontra
          split at hcontra <;> simp at hcontra
      · intro hcond
        exact absurd (hmiss.mpr hcond) h
  · intro hcond
    simp only [CreateServiceHandler, hmiss.mpr hcond, if_true]

/-- Witness for C4: a request with explicitly empty capability and
category collections and no metadata passes validation (a store error is
impossible under the no-failure oracle, so the call succeeds), while
dropping the capabilities collection makes the same call fail with a
validation error touching nothing. -/
theorem claim4_register_validation_witness :
    (¬ ((CreateServiceHandler FailSpec.noFail "svc-1" 0 0
          ⟨"a", "", "u", "", some [], some [], none⟩ Store.empty).2 =
        Except.error ApiError.validationError)) ∧
    CreateServiceHandler FailSpec.noFail "svc-1" 0 0
        ⟨"a", "", "u", "", none, some [], none⟩ Store.empty =
      (Store.empty, Except.error ApiError.validationError) :=
  ⟨fun h => by
      have := (claim4_register_validation FailSpec.noFail "svc-1" 0 0
        ⟨"a", "", "u", "", some [], some [], none⟩ Store.empty).1.mp h
      simp at this,
    (claim4_register_validation FailSpec.noFail "svc-1" 0 0
        ⟨"a", "", "u", "", none, some [], none⟩ Store.empty).2 (by simp)⟩

theorem likeMatches_underscore_cons (ps : List Char) (c : Char) (s : List Char) :
    likeMatches ('_' :: ps) (c :: s) = likeMatches ps s := by
  rw [likeMatches.eq_def]; simp

/-! ## Claim C5 -/

/-- C5 falsified at a concrete input: the handler splices the raw query
into the `ILIKE` pattern, so `LIKE` metacharacters in the query act as
wildcards.  Searching for `"a_b"` returns the service named `"axb"` even
though neither its name nor its (empty) description contains `"a_b"` as a
substring — `_` matched the `x`. -/
theorem claim5_counterexample :
    (SearchServicesHandler "a_b" axbStore).2 =
      Except.ok [ServiceModelToResponse svcAxb [] [] []] ∧
    (¬ ∃ a b, lowerChars svcAxb.name = a ++ lowerChars "a_b" ++ b) ∧
    (¬ ∃ a b, lowerChars svcAxb.description = a ++ lowerChars "a_b" ++ b) := by
  have hpat : ('%' :: lowerChars "a_b" ++ ['%']) = ['%', 'a', '_', 'b', '%'] := by decide
  have hname : lowerChars svcAxb.name = ['a', 'x', 'b'] := by decide
  have hmatch : searchWhere "a_b" svcAxb = true := by
    have h1 : likeMatches ('%' :: lowerChars "a_b" ++ ['%']) (lowerChars svcAxb.name) = true := by
      rw [hpat, hname]
      apply (likeMatches_pct ['a', '_', 'b', '%'] ['a', 'x', 'b']).mpr
      refine ⟨[], ['a', 'x', 'b'], rfl, ?_⟩
      rw [likeMatches_lit_cons 'a' _ 'a' _ (by decide) (by decide) (by decide)]
      rw [show (['_', 'b', '%'] : List Char) = '_' :: ['b', '%'] from rfl]
      rw [likeMatches_underscore_cons ['b', '%'] 'x' ['b']]
      rw [likeMatches_lit_cons 'b' _ 'b' _ (by decide) (by decide) (by decide)]
      simp [likeMatches_allPct]
    rw [List.cons_append] at h1
    simp [searchWhere, h1]
  have hfilter : [svcAxb].filter (searchWhere "a_b") = [svcAxb] := by
    simp [List.filter_cons, hmatch]
  refine ⟨?_, ?_, ?_⟩
  · simp [SearchServicesHandler, show (("a_b" : String) == "") = false from by decide,
      hfilter, childCaps, childCats, childMeta, axbStore]
  · intro h
    have hc := (containsSub_iff (lowerChars "a_b") (lowerChars svcAxb.name)).mpr h
    revert hc
    decide
  · intro h
    have hc := (containsSub_iff (lowerChars "a_b") (lowerChars svcAxb.description)).mpr h
    revert hc
    decide

/-- C5 (amended): Search fails with a validation error exactly on the
empty query; for a non-empty query free of the SQL `LIKE` metacharacters
`%`, `_` and backslash, it returns exactly the services whose name or
description contains the query as a case-insensitive unanchored substring
(`containsSub` below is that substring test, as the final conjunct
states); a query containing metacharacters is instead interpreted as a
`LIKE` pattern. -/
theorem claim5_search (q : String) (st : Store) (hclean : cleanChars (lowerChars q)) :
    (q = "" → SearchServicesHandler q st = (st, .error .validationError)) ∧
    (q ≠ "" → SearchServicesHandler q st = (st, .ok ((st.services.filter (fun svc =>
        containsSub (lowerChars q) (lowerChars svc.name) ||
          containsSub (lowerChars q) (lowerChars svc.description))).map (fun svc =>
      ServiceModelToResponse svc (childCaps st svc.id) (childCats st svc.id)
        (childMeta st svc.id))))) ∧
    (∀ s : List Char, containsSub (lowerChars q) s = true ↔
      ∃ a b, s = a ++ lowerChars q ++ b) := by
  refine ⟨?_, ?_, fun s => containsSub_iff (lowerChars q) s⟩
  · intro h
    subst h
    rfl
  · intro hq
    have hq' : (q == "") = false := by simpa using hq
    have hf : st.services.filter (searchWhere q) = st.services.filter (fun svc =>
        containsSub (lowerChars q) (lowerChars svc.name) ||
          containsSub (lowerChars q) (lowerChars svc.description)) :=
      List.filter_congr (fun svc _ => by
        simp only [searchWhere,
          likeMatches_eq_containsSub (lowerChars q) hclean (lowerChars svc.name),
          likeMatches_eq_containsSub (lowerChars q) hclean (lowerChars svc.description)])
    simp only [SearchServicesHandler, hq', Bool.false_eq_true, if_false, hf]

/-- Witness for C5's amended theorem: the clean query `"map"` matches both
the service named `"Mapping Service"` and the one described as
`"provides geo-mapping"`, case-insensitively. -/
theorem claim5_search_witness :
    (SearchServicesHandler "map" mapStore = (mapStore,
      .ok ((mapStore.services.filter (fun svc =>
          containsSub (lowerChars "map") (lowerChars svc.name) ||
            containsSub (lowerChars "map") (lowerChars svc.description))).map (fun svc =>
        ServiceModelToResponse svc (childCaps mapStore svc.id) (childCats mapStore svc.id)
          (childMeta mapStore svc.id))))) ∧
    mapStore.services.filter (fun svc =>
        containsSub (lowerChars "map") (lowerChars svc.name) ||
          containsSub (lowerChars "map") (lowerChars svc.description)) =
      [svcMapping, svcGeo] :=
  ⟨((claim5_search "map" mapStore (by unfold cleanChars; decide)).2.1 (by decide)), by decide⟩

/-! ## Claim C6 -/

/-- C6: for an existing id, Heartbeat rewrites the service row with
`last_seen = now` and everything else exactly as loaded — name, url,
description, `created_at` and the three child tables are untouched, as are
all other services; a non-existent id yields 404 and no write. -/
theorem claim6_heartbeat_frame (serviceID : String) (now : Int) (st : Store) :
    (serviceID ≠ "" → st.services.find? (fun s => s.id == serviceID) = none →
      HeartbeatHandler serviceID now st = (st, .error .notFound)) ∧
    (∀ svc : MCPService, serviceID ≠ "" →
      st.services.find? (fun s => s.id == serviceID) = some svc →
      (HeartbeatHandler serviceID now st).2 = .ok () ∧
      (HeartbeatHandler serviceID now st).1.services.find? (fun s => s.id == serviceID) =
        some { svc with lastSeen := now } ∧
      (HeartbeatHandler serviceID now st).1.services.filter (fun s => !(s.id == serviceID)) =
        st.services.filter (fun s => !(s.id == serviceID)) ∧
      (HeartbeatHandler serviceID now st).1.capabilities = st.capabilities ∧
      (HeartbeatHandler serviceID now st).1.categories = st.categories ∧
      (HeartbeatHandler serviceID now st).1.metadata = st.metadata) := by
  constructor
  · intro hid hnone
    have hid' : (serviceID == "") = false := by simpa using hid
    simp only [HeartbeatHandler, hid', Bool.false_eq_true, if_false, hnone]
  · intro svc hid hfind
    have hid' : (serviceID == "") = false := by simpa using hid
    have hsvcid : (svc.id == serviceID) = true := by
      have h := List.find?_some hfind
      simpa using h
    simp only [HeartbeatHandler, hid', Bool.false_eq_true, if_false, hfind]
    refine ⟨by trivial, ?_, ?_, by trivial, by trivial, by trivial⟩
    · exact find?_map_replace st.services serviceID _ (by exact hsvcid) (by rw [hfind]; rfl)
    · exact filter_map_replace st.services serviceID _ (by exact hsvcid)

/-- Witness for C6: a heartbeat for `svc-9` at instant 42 succeeds and
stores `svcBase` with only `lastSeen` changed, while a heartbeat for an
unknown id returns 404 leaving the store as it was. -/
theorem claim6_heartbeat_frame_witness :
    ((HeartbeatHandler "svc-9" 42 oneSvcStore).2 = .ok ()) ∧
    ((HeartbeatHandler "svc-9" 42 oneSvcStore).1.services.find? (fun s => s.id == "svc-9") =
      some { svcBase with lastSeen := 42 }) ∧
    HeartbeatHandler "bogus" 42 oneSvcStore = (oneSvcStore, .error .notFound) :=
  ⟨((claim6_heartbeat_frame "svc-9" 42 oneSvcStore).2 svcBase (by decide) (by decide)).1,
   ((claim6_heartbeat_frame "svc-9" 42 oneSvcStore).2 svcBase (by decide) (by decide)).2.1,
   (claim6_heartbeat_frame "bogus" 42 oneSvcStore).1 (by decide) (by decide)⟩

/-! ## Claim C7 -/

/-- C7: for any valid registration (non-empty name and url, capabilities
and categories supplied) with a fresh id and Go-map inputs (duplicate-free
capability and metadata keys), the Service returned by Register carries
collections that convert back exactly to the input capability map,
category sequence and metadata map. -/
theorem claim7_register_roundtrip (serviceID : String) (now tIns : Int)
    (request : ServiceRegistrationRequest) (st : Store)
    (caps : List (String × Bool)) (cats : List String)
    (hcaps : request.capabilities = some caps) (hcats : request.categories = some cats)
    (hname : request.name ≠ "") (hurl : request.url ≠ "")
    (hfreshSvc : ∀ s ∈ st.services, (s.id == serviceID) = false)
    (hfreshCap : ∀ c ∈ st.capabilities, (c.serviceID == serviceID) = false)
    (hfreshCat : ∀ c ∈ st.categories, (c.serviceID == serviceID) = false)
    (hfreshMeta : ∀ m ∈ st.metadata, (m.serviceID == serviceID) = false)
    (hnodupCaps : (caps.map Prod.fst).Nodup)
    (hnodupMeta : ((request.metadata.getD []).map Prod.fst).Nodup) :
    ∃ resp : ServiceResponse,
      (CreateServiceHandler FailSpec.noFail serviceID now tIns request st).2 =
        Except.ok resp ∧
      resp.capabilities = caps ∧ resp.categories = cats ∧
      resp.metadata = request.metadata.getD [] := by
  have hval : missingRequiredFields request = false := by
    simp [missingRequiredFields, hcaps, hcats, hname, hurl]
  have hsvcF : FailSpec.noFail.svc = false := rfl
  simp only [CreateServiceHandler, hval, Bool.false_eq_true, if_false, hsvcF,
    insertCapabilitiesSkip_noFail, insertCategoriesSkip_noFail, insertMetadataSkip_noFail,
    hcaps, hcats, Option.getD_some]
  have hfindNew : ((st.services ++
      [(⟨serviceID, request.name, request.description, request.url,
        request.apiDocs, tIns, now⟩ : MCPService)]).find? (fun s => s.id == serviceID)) =
      some (⟨serviceID, request.name, request.description, request.url,
        request.apiDocs, tIns, now⟩ : MCPService) :=
    find?_append_last _ _ _ (fun x hx => by simp [hfreshSvc x hx]) (by simp)
  simp only [loadService, childCaps, childCats, childMeta, hfindNew, Option.map_some,
    List.filter_append]
  simp only [show (st.capabilities.filter (fun c => c.serviceID == serviceID)) = []
      from List.filter_eq_nil_iff.mpr (fun c hc => by simp [hfreshCap c hc]),
    show (st.categories.filter (fun c => c.serviceID == serviceID)) = []
      from List.filter_eq_nil_iff.mpr (fun c hc => by simp [hfreshCat c hc]),
    show (st.metadata.filter (fun m => m.serviceID == serviceID)) = []
      from List.filter_eq_nil_iff.mpr (fun m hm => by simp [hfreshMeta m hm]),
    List.nil_append]
  simp only [show (List.filter (fun c => c.serviceID == serviceID)
        (caps.map (fun p => (⟨serviceID, p.1, p.2⟩ : Capability)))) =
      caps.map (fun p => (⟨serviceID, p.1, p.2⟩ : Capability)) from
    List.filter_eq_self.mpr (fun c hc => by
      obtain ⟨p, hp, rfl⟩ := List.mem_map.mp hc
      simp),
    show (List.filter (fun c => c.serviceID == serviceID)
        (cats.map (fun n => (⟨serviceID, n⟩ : Category)))) =
      cats.map (fun n => (⟨serviceID, n⟩ : Category)) from
    List.filter_eq_self.mpr (fun c hc => by
      obtain ⟨n, hn, rfl⟩ := List.mem_map.mp hc
      simp),
    show (List.filter (fun m => m.serviceID == serviceID)
        ((request.metadata.getD []).map (fun p => (⟨serviceID, p.1, p.2⟩ : MetadataItem)))) =
      (request.metadata.getD []).map (fun p => (⟨serviceID, p.1, p.2⟩ : MetadataItem)) from
    List.filter_eq_self.mpr (fun m hm => by
      obtain ⟨p, hp, rfl⟩ := List.mem_map.mp hm
      simp)]
  refine ⟨_, rfl, ?_, ?_, ?_⟩
  · simp only [ServiceModelToResponse, List.foldl_map]
    have h := foldl_mapInsert_nodup (α := Bool) caps [] (by simpa using hnodupCaps)
    simpa using h
  · simp [ServiceModelToResponse, List.map_map, Function.comp_def]
  · simp only [ServiceModelToResponse, List.foldl_map]
    have h := foldl_mapInsert_nodup (α := String) (request.metadata.getD []) []
      (by simpa using hnodupMeta)
    simpa using h

/-- Witness for C7: registering `reqOneCap` into the empty store returns a
response whose collections convert back to the input capability map
`[("x", true)]`, category list `[]` and (absent, hence empty) metadata
map. -/
theorem claim7_register_roundtrip_witness :
    ∃ resp : ServiceResponse,
      (CreateServiceHandler FailSpec.noFail "svc-1" 0 0 reqOneCap Store.empty).2 =
        Except.ok resp ∧
      resp.capabilities = [("x", true)] ∧ resp.categories = [] ∧
      resp.metadata = reqOneCap.metadata.getD [] :=
  claim7_register_roundtrip "svc-1" 0 0 reqOneCap Store.empty [("x", true)] []
    rfl rfl (by decide) (by decide) (by decide) (by decide) (by decide) (by decide)
    (by decide) (by decide)

/-! ## Claim C9 -/

/-- C9 falsified at a concrete input: registration captures `now` for
`last_seen` before the row insert, while gorm fills the `autoCreateTime`
column `created_at` at insert time; with a monotone clock reading 0 at the
handler's `time.Now()` and 1 at the insert, the freshly visible service
has `last_seen = 0 < 1 = created_at`, violating
`last_seen ≥ created_at`. -/
theorem claim9_counterexample :
    ((CreateServiceHandler FailSpec.noFail "svc-1" 0 1 reqOneCap Store.empty).1.services.all
      (fun s => decide (s.createdAt ≤ s.lastSeen))) = false ∧
    (0 : Int) ≤ 1 ∧
    (CreateServiceHandler FailSpec.noFail "svc-1" 0 1 reqOneCap Store.empty).1.services =
      [⟨"svc-1", "a", "", "u", "", 1, 0⟩] := by
  refine ⟨by decide, by decide, by decide⟩

/-- C9 (amended): a freshly registered service has
`last_seen ≤ created_at` — the inequality claimed, but in the opposite
direction — with `last_seen` the handler's clock reading and `created_at`
the (no earlier) insert-time reading; equality holds only when the two
reads coincide.  Heartbeat and Update set the target's `last_seen` to the
current time, which is `≥` its `created_at` under a monotone clock, and
leave `created_at` unchanged, so services touched by a heartbeat or update
after registration do satisfy `last_seen ≥ created_at`. -/
theorem claim9_timestamps :
    (∀ (fs : FailSpec) (serviceID : String) (now tIns : Int)
        (request : ServiceRegistrationRequest) (st : Store),
        now ≤ tIns →
        ∀ s ∈ (CreateServiceHandler fs serviceID now tIns request st).1.services,
          s ∈ st.services ∨
            (s.lastSeen = now ∧ s.createdAt = tIns ∧ s.lastSeen ≤ s.createdAt)) ∧
    (∀ (serviceID : String) (now : Int) (st : Store) (svc : MCPService),
        st.services.find? (fun s => s.id == serviceID) = some svc →
        svc.createdAt ≤ now →
        ∀ s ∈ (HeartbeatHandler serviceID now st).1.services,
          s ∈ st.services ∨
            (s.createdAt = svc.createdAt ∧ s.lastSeen = now ∧ s.createdAt ≤ s.lastSeen)) ∧
    (∀ (serviceID : String) (now : Int) (request : ServiceRegistrationRequest)
        (st : Store) (svc : MCPService),
        st.services.find? (fun s => s.id == serviceID) = some svc →
        svc.createdAt ≤ now →
        ∀ s ∈ (UpdateServiceHandler serviceID now request st).1.services,
          s ∈ st.services ∨
            (s.createdAt = svc.createdAt ∧ s.lastSeen = now ∧ s.createdAt ≤ s.lastSeen)) := by
  refine ⟨?_, ?_, ?_⟩
  · intro fs serviceID now tIns request st hmono s hs
    by_cases hval : missingRequiredFields request = true
    · left
      simpa [CreateServiceHandler, hval] using hs
    · have hvalF : missingRequiredFields request = false := by simpa using hval
      by_cases hsvc : fs.svc = true
      · left
        simpa [CreateServiceHandler, hvalF, hsvc] using hs
      · have hsvcF : fs.svc = false := by simpa using hsvc
        simp only [CreateServiceHandler, hvalF, Bool.false_eq_true, if_false, hsvcF] at hs
        split at hs <;>
          rw [insertMetadataSkip_services, insertCategoriesSkip_services,
            insertCapabilitiesSkip_services] at hs <;>
          rcases List.mem_append.mp hs with h | h
        · exact Or.inl h
        · rw [List.mem_singleton] at h
          subst h
          exact Or.inr ⟨rfl, rfl, hmono⟩
        · exact Or.inl h
        · rw [List.mem_singleton] at h
          subst h
          exact Or.inr ⟨rfl, rfl, hmono⟩
  · intro serviceID now st svc hfind hmono s hs
    by_cases hid : (serviceID == "") = true
    · left
      simpa [HeartbeatHandler, hid] using hs
    · have hid' : (serviceID == "") = false := by simpa using hid
      simp only [HeartbeatHandler, hid', Bool.false_eq_true, if_false, hfind] at hs
      obtain ⟨x, hx, hfx⟩ := List.mem_map.mp hs
      by_cases hxid : (x.id == serviceID) = true
      · rw [if_pos hxid] at hfx
        subst hfx
        exact Or.inr ⟨rfl, rfl, hmono⟩
      · rw [if_neg hxid] at hfx
        subst hfx
        exact Or.inl hx
  · intro serviceID now request st svc hfind hmono s hs
    by_cases hid : (serviceID == "") = true
    · left
      simpa [UpdateServiceHandler, hid] using hs
    · have hid' : (serviceID == "") = false := by simpa using hid
      obtain ⟨hstore, -⟩ := UpdateServiceHandler_run serviceID now request st svc hid' hfind
      rw [hstore] at hs
      obtain ⟨x, hx, hfx⟩ := List.mem_map.mp hs
      by_cases hxid : (x.id == serviceID) = true
      · rw [if_pos hxid] at hfx
        subst hfx
        exact Or.inr ⟨rfl, rfl, hmono⟩
      · rw [if_neg hxid] at hfx
        subst hfx
        exact Or.inl hx

/-- Witness for C9's amended theorem: after a heartbeat at instant 42 the
stored row for `svc-9` keeps `created_at = 5` and carries
`last_seen = 42 ≥ created_at`. -/
theorem claim9_timestamps_witness :
    ({ svcBase with lastSeen := 42 } : MCPService) ∈ oneSvcStore.services ∨
      (({ svcBase with lastSeen := 42 } : MCPService).createdAt = svcBase.createdAt ∧
        ({ svcBase with lastSeen := 42 } : MCPService).lastSeen = 42 ∧
        ({ svcBase with lastSeen := 42 } : MCPService).createdAt ≤
          ({ svcBase with lastSeen := 42 } : MCPService).lastSeen) :=
  claim9_timestamps.2.1 "svc-9" 42 oneSvcStore svcBase (by decide) (by decide)
    { svcBase with lastSeen := 42 } (by decide)
